import Mathlib

/-!
# Confession moderation workflow (models/confession.go)

A shallow embedding of the `Confession` model and of the operations it runs
against the `confessions` table.

* A row of the table is a `Confession`; the table is a `Store`, the list of its
  rows in physical order.  The store holds the rows the ORM's queries range
  over (those whose `deleted_at` is NULL); the three timestamp columns are
  maintained by the ORM alone, no function of `confession.go` reads or writes
  them, and they are left out of the record.
* Go's `int` is a 64-bit two's complement integer: fields are `Int` and the one
  arithmetic site (`c.CfsID + 1`) wraps through `wrapInt`.
* A write stores the struct's fields as they are: the table keeps any 64-bit
  value, as a store without column widths does.  The columns `int(11)` of a
  MySQL table hold 32 bits only, so the table and the model agree as long as the
  values written fit the column; `CfsInColumn` and `ColumnRoom` say so for
  `cfs_id`.
* Every method of the Go code mutates its receiver and talks to the database;
  here it takes the store and the receiver and returns both.
* `config.GetDatabaseConnection()` hands every method the same database; the
  handle is the pair of the table `s` and the flag `dbOk`: reads succeed
  whenever the row exists, a write succeeds or fails as `dbOk` says (the Go code
  only sees `err != nil`).
* The push notification of `ApproveConfession` and `RejectConfession` is posted
  after the write and its result is dropped; `Outcome.pushed` records the token
  it is addressed to.
-/

namespace Models

/-- One row of the `confessions` table (the struct `Confession`). -/
structure Confession where
  ID : Int
  Content : String
  Sender : String
  PushID : String
  Status : Int
  Approver : Int
  Reason : String
  CfsID : Int
deriving DecidableEq, Repr

/-- The zero value of the struct, as `new(Confession)` or `Confession{}` gives. -/
def Confession.zero : Confession :=
  { ID := 0, Content := "", Sender := "", PushID := "", Status := 0, Approver := 0,
    Reason := "", CfsID := 0 }

instance : Inhabited Confession := ⟨Confession.zero⟩

/-- The `confessions` table: its rows, in physical order. -/
abbrev Store := List Confession

/-- Two's complement wrap of a Go `int` (64 bits). -/
def wrapInt (x : Int) : Int := (x + 2 ^ 63) % 2 ^ 64 - 2 ^ 63

/-- What a method leaves behind: the table, the receiver, the returned `error`
(`none` for `nil`) and the push token a notification was posted to, if one was. -/
structure Outcome where
  store : Store
  recv : Confession
  err : Option String
  pushed : Option String
deriving DecidableEq, Repr

/-! ## ORM primitives -/

/-- `db.NewRecord(c)`: the primary key is blank. -/
def NewRecord (c : Confession) : Bool := c.ID == 0

/-- The condition the ORM adds to a query whose destination struct carries a
non-blank primary key: only the row with that key is looked at. -/
def primaryScope (s : Store) (c : Confession) : Store :=
  if c.ID = 0 then s else s.filter (fun r => r.ID = c.ID)

/-- `ORDER BY cfs_id DESC` (stable). -/
def orderByCfsIDDesc (s : Store) : Store :=
  s.insertionSort (fun a b => b.CfsID ≤ a.CfsID)

/-- `ORDER BY id DESC` (stable). -/
def orderByIDDesc (s : Store) : Store :=
  s.insertionSort (fun a b => b.ID ≤ a.ID)

/-- The key an auto-increment primary key column hands out next, on a table that
never lost a row: one more than the largest key (the counter of a real table
also counts the rows deleted since). -/
def nextKey (s : Store) : Int := (s.map (fun r => r.ID)).foldr max 0 + 1

/-- `INSERT` of a struct with a blank primary key: the store assigns the key and
the ORM writes it back into the struct. -/
def dbCreate (s : Store) (c : Confession) : Store × Confession :=
  let c1 := { c with ID := nextKey s }
  (s ++ [c1], c1)

/-- `db.Save` of a struct with a non-blank primary key: `UPDATE` of every column
of the rows with that key; when no row has it the ORM inserts the struct.  The
fields are stored as they are, with no column width: see `CfsInColumn` for the
values an `int(11)` column stores unchanged. -/
def dbUpdate (s : Store) (c : Confession) : Store :=
  if s.any (fun r => r.ID == c.ID) then s.map (fun r => if r.ID = c.ID then c else r)
  else s ++ [c]

/-- A token of a `LIKE` pattern. -/
inductive LikeTok where
  | any
  | one
  | lit (c : Char)
deriving DecidableEq, Repr

/-- Reading of a `LIKE` pattern: `%` stands for any run of characters, `_` for
any one character, and the escape character `\` makes the character after it
literal (a pattern's last `\` stands for itself). -/
def likeTokens : List Char → List LikeTok
  | [] => []
  | c :: cs =>
    if c = '%' then LikeTok.any :: likeTokens cs
    else if c = '_' then LikeTok.one :: likeTokens cs
    else if c = Char.ofNat 92 then
      match cs with
      | [] => [LikeTok.lit c]
      | d :: ds => LikeTok.lit d :: likeTokens ds
    else LikeTok.lit c :: likeTokens cs

/-- Whether the whole text matches the tokens.  Which characters count as the
same (case, accents) is the collation of the column, a setting of the store:
`collate c d` says that the pattern character `c` matches the text character
`d`. -/
def likeMatch (collate : Char → Char → Bool) : List LikeTok → List Char → Bool
  | [], cs => cs.isEmpty
  | LikeTok.any :: p, cs => cs.tails.any (fun t => likeMatch collate p t)
  | LikeTok.one :: _, [] => false
  | LikeTok.one :: p, _ :: cs => likeMatch collate p cs
  | LikeTok.lit _ :: _, [] => false
  | LikeTok.lit c :: p, d :: cs => collate c d && likeMatch collate p cs

/-- The binary collation: a character matches itself only. -/
def exactChars (c d : Char) : Bool := c == d

/-- The SQL predicate `text LIKE pattern`. -/
def sqlLike (collate : Char → Char → Bool) (text pattern : String) : Bool :=
  likeMatch collate (likeTokens pattern.data) text.data

/-! ## The methods of `Confession` -/

/-- `FetchByID`: `db.Where("id = ?", c.ID).Find(&c)`.  Every row found is scanned
into the receiver (the last one stays); no row is the error. -/
def FetchByID (s : Store) (c : Confession) : Confession × Option String :=
  match (s.filter (fun r => r.ID = c.ID)).getLast? with
  | some r => (r, none)
  | none => (c, some "Could not find the confession")

/-- `Create`. -/
def Create (dbOk : Bool) (s : Store) (c : Confession) : Store × Confession × Option String :=
  if !NewRecord c then (s, c, some "New records can not have primary key id")
  else if dbOk then
    let p := dbCreate s c
    (p.1, p.2, none)
  else (s, c, some "Could not create confession")

/-- `Save`. -/
def Save (dbOk : Bool) (s : Store) (c : Confession) : Store × Confession × Option String :=
  if NewRecord c then
    if dbOk then
      let p := dbCreate s c
      (p.1, p.2, none)
    else (s, c, some "Could not create confessions")
  else
    if dbOk then (dbUpdate s c, c, none)
    else (s, c, some "Could not update confessions")

/-- `FetchOverview`: the three `Count` queries. -/
def FetchOverview (s : Store) : Nat × Nat × Nat :=
  (s.length, (s.filter (fun r => r.Status = 0)).length, (s.filter (fun r => r.Status = 2)).length)

/-- `GetNextConfessionID`: `db.Order("cfs_id desc").Take(&c)` then `c.CfsID + 1`.
A row found is scanned into the receiver; when none is found the receiver keeps
its fields.  Returns the number and the receiver. -/
def GetNextConfessionID (s : Store) (c : Confession) : Int × Confession :=
  let c1 := match (orderByCfsIDDesc (primaryScope s c)).head? with
    | some r => r
    | none => c
  (wrapInt (c1.CfsID + 1), c1)

/-- `setConfessionApproved`. -/
def setConfessionApproved (c : Confession) (status approver cfsID : Int) : Confession :=
  { c with Status := status, Approver := approver, CfsID := cfsID }

/-- `ApproveConfession`. -/
def ApproveConfession (dbOk : Bool) (s : Store) (c : Confession) (approverID : Int) : Outcome :=
  match FetchByID s c with
  | (c1, some _) => ⟨s, c1, some "Could not find the confession", none⟩
  | (c1, none) =>
    if c1.Status ≠ 0 then
      ⟨s, c1, some "Status of confession must be pending to be approved", none⟩
    else
      let confessions := Confession.zero
      let c2 := setConfessionApproved c1 1 approverID (GetNextConfessionID s confessions).1
      match Save dbOk s c2 with
      | (s1, c3, some _) => ⟨s1, c3, some "Unable to update approved confession\x60", none⟩
      | (s1, c3, none) => ⟨s1, c3, none, some c3.PushID⟩

/-- `setConfessionUnapproved`. -/
def setConfessionUnapproved (c : Confession) : Confession :=
  { c with Status := 0, Approver := 0, CfsID := 0 }

/-- `RollbackApproveConfession`; the argument is not used by the Go code. -/
def RollbackApproveConfession (dbOk : Bool) (s : Store) (c : Confession) (_approverID : Int) :
    Outcome :=
  match FetchByID s c with
  | (c1, some _) => ⟨s, c1, some "Could not find the confession", none⟩
  | (c1, none) =>
    let c2 := setConfessionUnapproved c1
    match Save dbOk s c2 with
    | (s1, c3, some _) => ⟨s1, c3, some "Unable to rollback approved confession\x60", none⟩
    | (s1, c3, none) => ⟨s1, c3, none, none⟩

/-- `setConfessionRejected`. -/
def setConfessionRejected (c : Confession) (status approver : Int) (reason : String) :
    Confession :=
  { c with Status := status, Approver := approver, Reason := reason }

/-- `RejectConfession`. -/
def RejectConfession (dbOk : Bool) (s : Store) (c : Confession) (approverID : Int)
    (reason : String) : Outcome :=
  match FetchByID s c with
  | (c1, some _) => ⟨s, c1, some "Could not find the confession", none⟩
  | (c1, none) =>
    if c1.Status ≠ 0 then
      ⟨s, c1, some "Status of confession must be pending to be rejected", none⟩
    else
      let c2 := setConfessionRejected c1 2 approverID reason
      match Save dbOk s c2 with
      | (s1, c3, some _) => ⟨s1, c3, some "Unable to update approved confession\x60", none⟩
      | (s1, c3, none) => ⟨s1, c3, none, some c3.PushID⟩

/-- `SearchConfession`: `WHERE status = 1 AND content LIKE ?` with the argument
`"%"+keyword+"%"`, `ORDER BY id desc`, `LIMIT 50`. -/
def SearchConfession (collate : Char → Char → Bool) (s : Store) (keyword : String) :
    List Confession :=
  (orderByIDDesc (s.filter (fun r =>
    r.Status = 1 ∧ sqlLike collate r.Content ("%" ++ keyword ++ "%") = true))).take 50

/-! ## Sequences of moderator calls -/

/-- One call of a moderation method, with the receiver it is made on and whether
the database accepts the write. -/
inductive Call where
  | approve (dbOk : Bool) (c : Confession) (approverID : Int)
  | reject (dbOk : Bool) (c : Confession) (approverID : Int) (reason : String)
  | rollback (dbOk : Bool) (c : Confession) (approverID : Int)

/-- The call, run on a table. -/
def Call.run (s : Store) : Call → Outcome
  | Call.approve dbOk c a => ApproveConfession dbOk s c a
  | Call.reject dbOk c a reason => RejectConfession dbOk s c a reason
  | Call.rollback dbOk c a => RollbackApproveConfession dbOk s c a

/-- The table after a sequence of calls, each run to completion before the next. -/
def runCalls (s : Store) : List Call → Store
  | [] => s
  | k :: ks => runCalls (k.run s).store ks

/-! ## Predicates on tables -/

/-- The constraints of the primary key column `id`: no two rows share a key, and
no row has the blank key 0 (the column is auto-increment). -/
def KeysOk (s : Store) : Prop :=
  (s.map (fun r => r.ID)).Nodup ∧ ∀ r ∈ s, r.ID ≠ 0

instance (s : Store) : Decidable (KeysOk s) := by unfold KeysOk; infer_instance

/-- Every stored `cfs_id` is a 64-bit integer below the largest one, so that
`c.CfsID + 1` does not wrap (the column, `int(11)`, holds 32-bit values). -/
def CfsFits (s : Store) : Prop :=
  ∀ r ∈ s, -2 ^ 63 ≤ r.CfsID ∧ r.CfsID < 2 ^ 63 - 1

instance (s : Store) : Decidable (CfsFits s) := by unfold CfsFits; infer_instance

/-- Every status is Pending (0), Approved (1) or Rejected (2). -/
def StatusOk (s : Store) : Prop :=
  ∀ r ∈ s, r.Status = 0 ∨ r.Status = 1 ∨ r.Status = 2

instance (s : Store) : Decidable (StatusOk s) := by unfold StatusOk; infer_instance

/-- A public number is set only on approved rows. -/
def CfsOnlyApproved (s : Store) : Prop :=
  ∀ r ∈ s, r.CfsID ≠ 0 → r.Status = 1

instance (s : Store) : Decidable (CfsOnlyApproved s) := by unfold CfsOnlyApproved; infer_instance

/-- The non-zero public numbers are pairwise distinct: a row with a non-zero
`cfs_id` shares it with no other row. -/
def DistinctCfs (s : Store) : Prop :=
  s.Pairwise (fun a b => a.CfsID ≠ 0 → a.CfsID ≠ b.CfsID)

instance (s : Store) : Decidable (DistinctCfs s) := by unfold DistinctCfs; infer_instance

/-- The keyword has none of the characters a `LIKE` pattern reads specially. -/
def PlainKeyword (keyword : String) : Prop :=
  ∀ c ∈ keyword.data, c ≠ '%' ∧ c ≠ '_' ∧ c ≠ Char.ofNat 92

instance (keyword : String) : Decidable (PlainKeyword keyword) := by
  unfold PlainKeyword; infer_instance

/-- The text contains the keyword up to the collation: a run of consecutive
characters of the text matches the keyword character by character. -/
def ContainsUnder (collate : Char → Char → Bool) (keyword text : List Char) : Prop :=
  ∃ m, m <:+: text ∧ List.Forall₂ (fun c d => collate c d = true) keyword m

/-- Every stored `cfs_id` lies in the range of its column, `int(11)` (32 bits,
signed), and below the largest value of that range, 2147483647: one more is
still a value the column stores unchanged. -/
def CfsInColumn (s : Store) : Prop :=
  ∀ r ∈ s, -2 ^ 31 ≤ r.CfsID ∧ r.CfsID < 2 ^ 31 - 1

instance (s : Store) : Decidable (CfsInColumn s) := by unfold CfsInColumn; infer_instance

/-- Room in the column for `n` more approvals: every stored `cfs_id` lies in the
range of `int(11)`, and `n` successive `c.CfsID + 1` starting from any of them
stay in it. -/
def ColumnRoom (n : Nat) (s : Store) : Prop :=
  (n : Int) < 2 ^ 31 ∧ ∀ r ∈ s, -2 ^ 31 ≤ r.CfsID ∧ r.CfsID + n < 2 ^ 31

instance (n : Nat) (s : Store) : Decidable (ColumnRoom n s) := by
  unfold ColumnRoom; infer_instance

/-! ## A sample table -/

/-- An approved row. -/
def approvedRow : Confession :=
  { ID := 4, Content := "first post", Sender := "u0", PushID := "t0", Status := 1, Approver := 9,
    Reason := "", CfsID := 17 }

/-- A rejected row. -/
def rejectedRow : Confession :=
  { ID := 5, Content := "buy now", Sender := "u2", PushID := "t2", Status := 2, Approver := 9,
    Reason := "spam", CfsID := 0 }

/-- A pending row. -/
def pendingRow : Confession :=
  { ID := 6, Content := "hello", Sender := "u1", PushID := "t1", Status := 0, Approver := 0,
    Reason := "", CfsID := 0 }

/-- A table with one row of each status. -/
def sampleStore : Store := [approvedRow, rejectedRow, pendingRow]

/-! ## A table whose counter is at the largest 64-bit integer -/

/-- An approved row whose `cfs_id` is the largest Go `int`. -/
def lastNumberRow : Confession :=
  { ID := 1, Content := "old", Sender := "u0", PushID := "t0", Status := 1, Approver := 9,
    Reason := "", CfsID := 9223372036854775807 }

/-- A pending row. -/
def waitingRow : Confession :=
  { ID := 2, Content := "new", Sender := "u1", PushID := "t1", Status := 0, Approver := 0,
    Reason := "", CfsID := 0 }

/-- Another pending row. -/
def otherWaitingRow : Confession :=
  { ID := 3, Content := "newer", Sender := "u2", PushID := "t2", Status := 0, Approver := 0,
    Reason := "", CfsID := 0 }

/-- The three rows, as three `Create` calls on the empty table leave them. -/
def wrapStore : Store := [lastNumberRow, waitingRow, otherWaitingRow]

/-! ## Lemmas on the ORM primitives -/

theorem filter_key_eq_singleton {s : Store} (hn : (s.map (fun r => r.ID)).Nodup)
    {r : Confession} (hr : r ∈ s) (k : Int) (hk : r.ID = k) :
    s.filter (fun q => q.ID = k) = [r] := by
  induction s with
  | nil => simp at hr
  | cons a t ih =>
    simp only [List.map_cons, List.nodup_cons, List.mem_map, not_exists, not_and] at hn
    rcases List.mem_cons.1 hr with h | h
    · subst h
      have : t.filter (fun q => decide (q.ID = k)) = [] := by
        rw [List.filter_eq_nil_iff]
        intro q hq
        have := hn.1 q hq
        simp only [decide_eq_true_eq]
        intro h2; exact this (h2.trans hk.symm)
      simp [List.filter_cons, hk, this]
    · have hne : a.ID ≠ k := by
        intro h2
        exact hn.1 r h (hk.trans h2.symm)
      simp [List.filter_cons, hne, ih hn.2 h]

theorem FetchByID_found {s : Store} (hn : (s.map (fun r => r.ID)).Nodup)
    {r : Confession} (hr : r ∈ s) {c : Confession} (hk : r.ID = c.ID) :
    FetchByID s c = (r, none) := by
  simp [FetchByID, filter_key_eq_singleton hn hr c.ID hk]

theorem FetchByID_missing {s : Store} {c : Confession} (h : ∀ r ∈ s, r.ID ≠ c.ID) :
    FetchByID s c = (c, some "Could not find the confession") := by
  have : s.filter (fun q => decide (q.ID = c.ID)) = [] := by
    rw [List.filter_eq_nil_iff]
    intro q hq
    simpa using h q hq
  simp [FetchByID, this]

theorem FetchByID_cases (s : Store) (c : Confession) :
    (FetchByID s c = (c, some "Could not find the confession") ∧ ∀ r ∈ s, r.ID ≠ c.ID) ∨
    ∃ r, r ∈ s ∧ r.ID = c.ID ∧ FetchByID s c = (r, none) := by
  cases h : (s.filter (fun q => decide (q.ID = c.ID))).getLast? with
  | none =>
    left
    rw [List.getLast?_eq_none_iff] at h
    refine ⟨by simp [FetchByID, h], ?_⟩
    intro r hr
    rw [List.filter_eq_nil_iff] at h
    simpa using h r hr
  | some r =>
    right
    have hm := List.mem_of_getLast?_eq_some h
    rw [List.mem_filter] at hm
    exact ⟨r, hm.1, by simpa using hm.2, by simp [FetchByID, h]⟩

theorem dbUpdate_of_mem {s : Store} {c r : Confession} (hr : r ∈ s) (hk : r.ID = c.ID) :
    dbUpdate s c = s.map (fun q => if q.ID = c.ID then c else q) := by
  have : s.any (fun q => q.ID == c.ID) = true := by
    rw [List.any_eq_true]; exact ⟨r, hr, by simp [hk]⟩
  simp [dbUpdate, this]



theorem wrapInt_of_fits {x : Int} (h1 : -2 ^ 63 ≤ x) (h2 : x < 2 ^ 63) : wrapInt x = x := by
  unfold wrapInt
  norm_num at h1 h2 ⊢
  omega

theorem orderByCfsIDDesc_head {s : Store} (hs : s ≠ []) :
    ∃ h, (orderByCfsIDDesc s).head? = some h ∧ h ∈ s ∧ ∀ q ∈ s, q.CfsID ≤ h.CfsID := by
  haveI : IsTotal Confession (fun a b => b.CfsID ≤ a.CfsID) := ⟨fun a b => le_total _ _⟩
  haveI : IsTrans Confession (fun a b => b.CfsID ≤ a.CfsID) :=
    ⟨fun a b c hab hbc => le_trans hbc hab⟩
  have hsorted := List.sorted_insertionSort (fun a b : Confession => b.CfsID ≤ a.CfsID) s
  have hperm := List.perm_insertionSort (fun a b : Confession => b.CfsID ≤ a.CfsID) s
  unfold orderByCfsIDDesc
  cases hl : List.insertionSort (fun a b : Confession => b.CfsID ≤ a.CfsID) s with
  | nil =>
    rw [hl] at hperm
    exact absurd hperm.symm.eq_nil hs
  | cons h t =>
    rw [hl] at hsorted hperm
    refine ⟨h, rfl, hperm.mem_iff.1 (List.mem_cons_self _ _), ?_⟩
    intro q hq
    rcases List.mem_cons.1 (hperm.mem_iff.2 hq) with e | e
    · rw [e]
    · exact List.rel_of_sorted_cons hsorted q e

theorem GetNextConfessionID_fresh {s : Store} (hs : s ≠ []) (c : Confession) (hc : c.ID = 0) :
    ∃ h, h ∈ s ∧ (∀ q ∈ s, q.CfsID ≤ h.CfsID) ∧
      GetNextConfessionID s c = (wrapInt (h.CfsID + 1), h) := by
  obtain ⟨h, hh, hm, hmax⟩ := orderByCfsIDDesc_head hs
  refine ⟨h, hm, hmax, ?_⟩
  simp [GetNextConfessionID, primaryScope, hc, hh]


theorem Save_update {s : Store} {c r : Confession} (hk : ∀ q ∈ s, q.ID ≠ 0) (hr : r ∈ s)
    (hid : r.ID = c.ID) :
    Save true s c = (s.map (fun q => if q.ID = c.ID then c else q), c, none) := by
  have h0 : c.ID ≠ 0 := hid ▸ hk r hr
  simp [Save, NewRecord, h0, dbUpdate_of_mem hr hid]

theorem Save_refused (s : Store) (c : Confession) :
    ∃ e, Save false s c = (s, c, some e) := by
  by_cases h : NewRecord c = true
  · exact ⟨"Could not create confessions", by simp [Save, h]⟩
  · exact ⟨"Could not update confessions", by simp [Save, h]⟩

/-! ## What each method does, case by case -/

theorem ApproveConfession_missing (dbOk : Bool) {s : Store} {c : Confession} (a : Int)
    (h : ∀ r ∈ s, r.ID ≠ c.ID) :
    ApproveConfession dbOk s c a = ⟨s, c, some "Could not find the confession", none⟩ := by
  simp [ApproveConfession, FetchByID_missing h]

theorem ApproveConfession_guard (dbOk : Bool) {s : Store} {c r : Confession} (a : Int)
    (hn : (s.map (fun r => r.ID)).Nodup) (hr : r ∈ s) (hid : r.ID = c.ID) (hst : r.Status ≠ 0) :
    ApproveConfession dbOk s c a =
      ⟨s, r, some "Status of confession must be pending to be approved", none⟩ := by
  simp [ApproveConfession, FetchByID_found hn hr hid, hst]

theorem ApproveConfession_saved {s : Store} {c r : Confession} (a : Int) (hk : KeysOk s)
    (hr : r ∈ s) (hid : r.ID = c.ID) (hst : r.Status = 0) :
    ApproveConfession true s c a =
      ⟨s.map (fun q => if q.ID = c.ID then
          setConfessionApproved r 1 a (GetNextConfessionID s Confession.zero).1 else q),
        setConfessionApproved r 1 a (GetNextConfessionID s Confession.zero).1, none,
        some r.PushID⟩ := by
  have hsave := Save_update
    (c := setConfessionApproved r 1 a (GetNextConfessionID s Confession.zero).1) hk.2 hr
    (by simp [setConfessionApproved, hid])
  have hid2 : (setConfessionApproved r 1 a (GetNextConfessionID s Confession.zero).1).ID = r.ID :=
    rfl
  simp only [ApproveConfession, FetchByID_found hk.1 hr hid, hst, hsave, hid2, hid,
    ne_eq, not_true_eq_false, if_false]
  rfl

theorem ApproveConfession_refused {s : Store} {c r : Confession} (a : Int)
    (hn : (s.map (fun r => r.ID)).Nodup) (hr : r ∈ s) (hid : r.ID = c.ID) (hst : r.Status = 0) :
    ApproveConfession false s c a =
      ⟨s, setConfessionApproved r 1 a (GetNextConfessionID s Confession.zero).1,
        some "Unable to update approved confession\x60", none⟩ := by
  obtain ⟨e, he⟩ := Save_refused s
    (setConfessionApproved r 1 a (GetNextConfessionID s Confession.zero).1)
  simp only [ApproveConfession, FetchByID_found hn hr hid, hst, he,
    ne_eq, not_true_eq_false, if_false]

theorem RejectConfession_missing (dbOk : Bool) {s : Store} {c : Confession} (a : Int)
    (reason : String) (h : ∀ r ∈ s, r.ID ≠ c.ID) :
    RejectConfession dbOk s c a reason =
      ⟨s, c, some "Could not find the confession", none⟩ := by
  simp [RejectConfession, FetchByID_missing h]

theorem RejectConfession_guard (dbOk : Bool) {s : Store} {c r : Confession} (a : Int)
    (reason : String) (hn : (s.map (fun r => r.ID)).Nodup) (hr : r ∈ s) (hid : r.ID = c.ID)
    (hst : r.Status ≠ 0) :
    RejectConfession dbOk s c a reason =
      ⟨s, r, some "Status of confession must be pending to be rejected", none⟩ := by
  simp [RejectConfession, FetchByID_found hn hr hid, hst]

theorem RejectConfession_saved {s : Store} {c r : Confession} (a : Int) (reason : String)
    (hk : KeysOk s) (hr : r ∈ s) (hid : r.ID = c.ID) (hst : r.Status = 0) :
    RejectConfession true s c a reason =
      ⟨s.map (fun q => if q.ID = c.ID then setConfessionRejected r 2 a reason else q),
        setConfessionRejected r 2 a reason, none, some r.PushID⟩ := by
  have hsave := Save_update (c := setConfessionRejected r 2 a reason) hk.2 hr
    (by simp [setConfessionRejected, hid])
  have hid2 : (setConfessionRejected r 2 a reason).ID = r.ID := rfl
  simp only [RejectConfession, FetchByID_found hk.1 hr hid, hst, hsave, hid2, hid,
    ne_eq, not_true_eq_false, if_false]
  rfl

theorem RejectConfession_refused {s : Store} {c r : Confession} (a : Int) (reason : String)
    (hn : (s.map (fun r => r.ID)).Nodup) (hr : r ∈ s) (hid : r.ID = c.ID) (hst : r.Status = 0) :
    RejectConfession false s c a reason =
      ⟨s, setConfessionRejected r 2 a reason,
        some "Unable to update approved confession\x60", none⟩ := by
  obtain ⟨e, he⟩ := Save_refused s (setConfessionRejected r 2 a reason)
  simp only [RejectConfession, FetchByID_found hn hr hid, hst, he,
    ne_eq, not_true_eq_false, if_false]

theorem RollbackApproveConfession_missing (dbOk : Bool) {s : Store} {c : Confession} (a : Int)
    (h : ∀ r ∈ s, r.ID ≠ c.ID) :
    RollbackApproveConfession dbOk s c a =
      ⟨s, c, some "Could not find the confession", none⟩ := by
  simp [RollbackApproveConfession, FetchByID_missing h]

theorem RollbackApproveConfession_saved {s : Store} {c r : Confession} (a : Int)
    (hk : KeysOk s) (hr : r ∈ s) (hid : r.ID = c.ID) :
    RollbackApproveConfession true s c a =
      ⟨s.map (fun q => if q.ID = c.ID then setConfessionUnapproved r else q),
        setConfessionUnapproved r, none, none⟩ := by
  have hsave := Save_update (c := setConfessionUnapproved r) hk.2 hr
    (by simp [setConfessionUnapproved, hid])
  have hid2 : (setConfessionUnapproved r).ID = r.ID := rfl
  simp only [RollbackApproveConfession, FetchByID_found hk.1 hr hid, hsave, hid2, hid]

theorem RollbackApproveConfession_refused {s : Store} {c r : Confession} (a : Int)
    (hn : (s.map (fun r => r.ID)).Nodup) (hr : r ∈ s) (hid : r.ID = c.ID) :
    RollbackApproveConfession false s c a =
      ⟨s, setConfessionUnapproved r, some "Unable to rollback approved confession\x60", none⟩ := by
  obtain ⟨e, he⟩ := Save_refused s (setConfessionUnapproved r)
  simp only [RollbackApproveConfession, FetchByID_found hn hr hid, he]

theorem mem_Save {dbOk : Bool} {s : Store} {c q : Confession} (hq : q ∈ (Save dbOk s c).1) :
    q ∈ s ∨ q = c ∨ q = { c with ID := nextKey s } := by
  unfold Save at hq
  by_cases hn : NewRecord c = true <;> cases dbOk <;>
    simp only [hn, if_true, if_false, Bool.false_eq_true, dbCreate] at hq
  · exact Or.inl hq
  · rcases List.mem_append.1 hq with h | h
    · exact Or.inl h
    · exact Or.inr (Or.inr (by simpa using h))
  · exact Or.inl hq
  · unfold dbUpdate at hq
    split at hq
    · rcases List.mem_map.1 hq with ⟨x, hx, hxq⟩
      by_cases hid : x.ID = c.ID
      · rw [if_pos hid] at hxq
        exact Or.inr (Or.inl hxq.symm)
      · rw [if_neg hid] at hxq
        exact Or.inl (hxq ▸ hx)
    · rcases List.mem_append.1 hq with h | h
      · exact Or.inl h
      · exact Or.inr (Or.inl (by simpa using h))

theorem mem_ApproveConfession_store {dbOk : Bool} {s : Store} {c q : Confession} {a : Int}
    (hq : q ∈ (ApproveConfession dbOk s c a).store) : q ∈ s ∨ q.Status = 1 := by
  unfold ApproveConfession at hq
  rcases FetchByID_cases s c with ⟨h, _⟩ | ⟨r, _, _, h⟩
  · rw [h] at hq; exact Or.inl hq
  · rw [h] at hq
    by_cases hst : r.Status = 0
    · simp only [hst, ne_eq, not_true_eq_false, if_false] at hq
      have key : ∀ x ∈ (Save dbOk s (setConfessionApproved r 1 a
          (GetNextConfessionID s Confession.zero).1)).1, x ∈ s ∨ x.Status = 1 := by
        intro x hx
        rcases mem_Save hx with h1 | h1 | h1
        · exact Or.inl h1
        · exact Or.inr (by rw [h1]; rfl)
        · exact Or.inr (by rw [h1]; rfl)
      generalize Save dbOk s (setConfessionApproved r 1 a
          (GetNextConfessionID s Confession.zero).1) = res at hq key
      obtain ⟨s1, c3, e⟩ := res
      cases e <;> exact key q hq
    · simp only [ne_eq, hst, not_false_eq_true, if_true] at hq
      exact Or.inl hq

theorem mem_RejectConfession_store {dbOk : Bool} {s : Store} {c q : Confession} {a : Int}
    {reason : String} (hq : q ∈ (RejectConfession dbOk s c a reason).store) :
    q ∈ s ∨ (q.Status = 2 ∧ ∃ r ∈ s, r.Status = 0 ∧ q.CfsID = r.CfsID) := by
  unfold RejectConfession at hq
  rcases FetchByID_cases s c with ⟨h, _⟩ | ⟨r, hr, _, h⟩
  · rw [h] at hq; exact Or.inl hq
  · rw [h] at hq
    by_cases hst : r.Status = 0
    · simp only [hst, ne_eq, not_true_eq_false, if_false] at hq
      have key : ∀ x ∈ (Save dbOk s (setConfessionRejected r 2 a reason)).1,
          x ∈ s ∨ (x.Status = 2 ∧ ∃ r ∈ s, r.Status = 0 ∧ x.CfsID = r.CfsID) := by
        intro x hx
        rcases mem_Save hx with h1 | h1 | h1
        · exact Or.inl h1
        · exact Or.inr ⟨by rw [h1]; rfl, r, hr, hst, by rw [h1]; rfl⟩
        · exact Or.inr ⟨by rw [h1]; rfl, r, hr, hst, by rw [h1]; rfl⟩
      generalize Save dbOk s (setConfessionRejected r 2 a reason) = res at hq key
      obtain ⟨s1, c3, e⟩ := res
      cases e <;> exact key q hq
    · simp only [ne_eq, hst, not_false_eq_true, if_true] at hq
      exact Or.inl hq

theorem mem_RollbackApproveConfession_store {dbOk : Bool} {s : Store} {c q : Confession}
    {a : Int} (hq : q ∈ (RollbackApproveConfession dbOk s c a).store) :
    q ∈ s ∨ (q.Status = 0 ∧ q.CfsID = 0) := by
  unfold RollbackApproveConfession at hq
  rcases FetchByID_cases s c with ⟨h, _⟩ | ⟨r, _, _, h⟩
  · rw [h] at hq; exact Or.inl hq
  · rw [h] at hq
    have key : ∀ x ∈ (Save dbOk s (setConfessionUnapproved r)).1,
        x ∈ s ∨ (x.Status = 0 ∧ x.CfsID = 0) := by
      intro x hx
      rcases mem_Save hx with h1 | h1 | h1
      · exact Or.inl h1
      · exact Or.inr ⟨by rw [h1]; rfl, by rw [h1]; rfl⟩
      · exact Or.inr ⟨by rw [h1]; rfl, by rw [h1]; rfl⟩
    simp only at hq
    generalize Save dbOk s (setConfessionUnapproved r) = res at hq key
    obtain ⟨s1, c3, e⟩ := res
    cases e <;> exact key q hq

theorem length_eq_count_by_status {s : Store} (h : StatusOk s) :
    s.length = s.countP (fun r => r.Status = 0) + s.countP (fun r => r.Status = 1) +
      s.countP (fun r => r.Status = 2) := by
  induction s with
  | nil => rfl
  | cons a t ih =>
    have ht : StatusOk t := fun r hr => h r (List.mem_cons_of_mem _ hr)
    have ha := h a (List.mem_cons_self _ _)
    rw [List.length_cons, ih ht]
    rcases ha with h0 | h1 | h2
    · simp [List.countP_cons, h0]; omega
    · simp [List.countP_cons, h1]; omega
    · simp [List.countP_cons, h2]; omega

/-! ## Lemmas on `LIKE` -/

theorem likeTokens_plain (kw rest : List Char)
    (h : ∀ c ∈ kw, c ≠ '%' ∧ c ≠ '_' ∧ c ≠ Char.ofNat 92) :
    likeTokens (kw ++ rest) = kw.map LikeTok.lit ++ likeTokens rest := by
  induction kw with
  | nil => rfl
  | cons c cs ih =>
    obtain ⟨h1, h2, h3⟩ := h c (List.mem_cons_self _ _)
    have ih2 := ih (fun d hd => h d (List.mem_cons_of_mem _ hd))
    rw [List.cons_append, likeTokens.eq_def]
    simp only [h1, h2, h3, if_false, ih2, List.map_cons, List.cons_append]

theorem likeMatch_any_iff (collate : Char → Char → Bool) (p : List LikeTok) (cs : List Char) :
    likeMatch collate (LikeTok.any :: p) cs = true ↔
      ∃ t, t <:+ cs ∧ likeMatch collate p t = true := by
  simp only [likeMatch, List.any_eq_true, List.mem_tails]

theorem likeMatch_any_end (collate : Char → Char → Bool) (cs : List Char) :
    likeMatch collate [LikeTok.any] cs = true := by
  rw [likeMatch_any_iff]
  exact ⟨[], List.nil_suffix, rfl⟩

theorem likeMatch_lits_iff (collate : Char → Char → Bool) (kw cs : List Char) :
    likeMatch collate (kw.map LikeTok.lit ++ [LikeTok.any]) cs = true ↔
      ∃ m, m <+: cs ∧ List.Forall₂ (fun c d => collate c d = true) kw m := by
  induction kw generalizing cs with
  | nil =>
    simp only [List.map_nil, List.nil_append, likeMatch_any_end, true_iff]
    exact ⟨[], List.nil_prefix, List.Forall₂.nil⟩
  | cons c kw ih =>
    cases cs with
    | nil =>
      simp only [List.map_cons, List.cons_append, likeMatch, Bool.false_eq_true, false_iff]
      rintro ⟨m, hm, hf⟩
      rw [List.prefix_nil] at hm
      subst hm
      cases hf
    | cons d cs =>
      have ih2 := ih cs
      have hstep : likeMatch collate (LikeTok.lit c :: (kw.map LikeTok.lit ++ [LikeTok.any]))
          (d :: cs) = (collate c d && likeMatch collate (kw.map LikeTok.lit ++ [LikeTok.any]) cs) :=
        rfl
      rw [List.map_cons, List.cons_append, hstep, Bool.and_eq_true, ih2]
      constructor
      · rintro ⟨hcd, m, hm, hf⟩
        exact ⟨d :: m, List.cons_prefix_cons.2 ⟨rfl, hm⟩, List.Forall₂.cons hcd hf⟩
      · rintro ⟨m, hm, hf⟩
        cases hf with
        | cons hcd hf2 =>
          obtain ⟨he, hm2⟩ := List.cons_prefix_cons.1 hm
          subst he
          exact ⟨hcd, _, hm2, hf2⟩

theorem sqlLike_contains (collate : Char → Char → Bool) (text keyword : String)
    (h : PlainKeyword keyword) :
    sqlLike collate text ("%" ++ keyword ++ "%") = true ↔
      ContainsUnder collate keyword.data text.data := by
  have hp : ("%" ++ keyword ++ "%").data = [] ++ ('%' :: (keyword.data ++ ['%'])) := by
    simp [String.data_append]
  have ht : likeTokens ('%' :: (keyword.data ++ ['%'])) =
      LikeTok.any :: (keyword.data.map LikeTok.lit ++ [LikeTok.any]) := by
    have h2 := likeTokens_plain keyword.data ['%'] h
    have h3 : likeTokens ['%'] = [LikeTok.any] := by decide
    rw [likeTokens.eq_def]
    simp only [if_true, h2, h3]
  unfold sqlLike ContainsUnder
  rw [hp, List.nil_append, ht, likeMatch_any_iff]
  constructor
  · rintro ⟨t, hs, hm⟩
    obtain ⟨m, hpre, hf⟩ := (likeMatch_lits_iff _ _ _).1 hm
    exact ⟨m, List.infix_iff_prefix_suffix.2 ⟨t, hpre, hs⟩, hf⟩
  · rintro ⟨m, hin, hf⟩
    obtain ⟨t, hpre, hs⟩ := List.infix_iff_prefix_suffix.1 hin
    exact ⟨t, hs, (likeMatch_lits_iff _ _ _).2 ⟨m, hpre, hf⟩⟩

theorem ContainsUnder_exact (keyword text : List Char) :
    ContainsUnder exactChars keyword text ↔ keyword <:+: text := by
  have key : ∀ m, List.Forall₂ (fun c d => exactChars c d = true) keyword m ↔ keyword = m := by
    intro m
    have : (fun c d => exactChars c d = true) = (fun c d : Char => c = d) := by
      funext c d
      simp [exactChars]
    rw [this, List.forall₂_eq_eq_eq]
  unfold ContainsUnder
  constructor
  · rintro ⟨m, hin, hf⟩
    rw [(key m).1 hf]; exact hin
  · intro hin
    exact ⟨keyword, hin, (key keyword).2 rfl⟩

theorem orderByIDDesc_perm (l : Store) : List.Perm (orderByIDDesc l) l :=
  List.perm_insertionSort _ l

theorem orderByIDDesc_strict {l : Store} (hn : (l.map (fun r => r.ID)).Nodup) :
    (orderByIDDesc l).Pairwise (fun a b => b.ID < a.ID) := by
  haveI : IsTotal Confession (fun a b => b.ID ≤ a.ID) := ⟨fun a b => le_total _ _⟩
  haveI : IsTrans Confession (fun a b => b.ID ≤ a.ID) :=
    ⟨fun a b c hab hbc => le_trans hbc hab⟩
  have hsorted : (orderByIDDesc l).Pairwise (fun a b => b.ID ≤ a.ID) :=
    List.sorted_insertionSort (fun a b : Confession => b.ID ≤ a.ID) l
  have hn2 : ((orderByIDDesc l).map (fun r => r.ID)).Nodup :=
    ((orderByIDDesc_perm l).map _).nodup_iff.2 hn
  have hne : (orderByIDDesc l).Pairwise (fun a b => a.ID ≠ b.ID) := by
    unfold List.Nodup at hn2
    rwa [List.pairwise_map] at hn2
  exact (hsorted.and hne).imp (fun ⟨h1, h2⟩ => lt_of_le_of_ne h1 (Ne.symm h2))

theorem nodup_keys_filter {s : Store} (hn : (s.map (fun r => r.ID)).Nodup)
    (p : Confession → Bool) : ((s.filter p).map (fun r => r.ID)).Nodup :=
  hn.sublist ((List.filter_sublist s).map _)

/-! ## One call as a rewrite of one row -/

/-- `DistinctCfs` read on the list of public numbers: the non-zero `cfs_id`s of
the table, listed row by row, have no repetition. -/
theorem DistinctCfs_iff_nodup (s : Store) :
    DistinctCfs s ↔ ((s.filter (fun r => r.CfsID ≠ 0)).map (fun r => r.CfsID)).Nodup := by
  unfold DistinctCfs List.Nodup
  rw [List.pairwise_map, List.pairwise_filter]
  constructor
  · intro h
    exact h.imp (fun hab ha _ => hab (by simpa using ha))
  · intro h
    refine h.imp ?_
    intro a b hab ha
    by_cases hb : b.CfsID = 0
    · rw [hb]; exact ha
    · exact hab (by simpa using ha) (by simpa using hb)

theorem eq_of_key_eq {s : Store} (hn : (s.map (fun r => r.ID)).Nodup) {a b : Confession}
    (ha : a ∈ s) (hb : b ∈ s) (h : a.ID = b.ID) : a = b :=
  List.inj_on_of_nodup_map hn ha hb h

theorem find_key (s : Store) (k : Int) : (∃ r ∈ s, r.ID = k) ∨ ∀ r ∈ s, r.ID ≠ k := by
  by_cases h : ∃ r ∈ s, r.ID = k
  · exact Or.inl h
  · right
    intro r hr hk
    exact h ⟨r, hr, hk⟩

/-- Under the key constraints a call leaves the table as it is or rewrites the one
row with the receiver's id, keeping its id; the new `cfs_id` is the old one
(reject), 0 (rollback) or the wrapped successor of the largest one (approve). -/
theorem Call_run_store (k : Call) {s : Store} (hk : KeysOk s) :
    (k.run s).store = s ∨
      ∃ r r1, r ∈ s ∧ r1.ID = r.ID ∧
        (k.run s).store = s.map (fun q => if q.ID = r.ID then r1 else q) ∧
        (r1.CfsID = r.CfsID ∨ r1.CfsID = 0 ∨
          ∃ h ∈ s, (∀ q ∈ s, q.CfsID ≤ h.CfsID) ∧ r1.CfsID = wrapInt (h.CfsID + 1)) := by
  cases k with
  | approve dbOk c a =>
    rcases find_key s c.ID with ⟨r, hr, hid⟩ | hmiss
    · by_cases hst : r.Status = 0
      · cases dbOk
        · left
          simp only [Call.run]
          rw [ApproveConfession_refused a hk.1 hr hid hst]
        · right
          obtain ⟨h, hm, hmax, hnext⟩ :=
            GetNextConfessionID_fresh (List.ne_nil_of_mem hr) Confession.zero rfl
          refine ⟨r, setConfessionApproved r 1 a (wrapInt (h.CfsID + 1)), hr, rfl, ?_,
            Or.inr (Or.inr ⟨h, hm, hmax, rfl⟩)⟩
          simp only [Call.run]
          rw [ApproveConfession_saved a hk hr hid hst, hnext, hid]
      · left
        simp only [Call.run]
        rw [ApproveConfession_guard dbOk a hk.1 hr hid hst]
    · left
      simp only [Call.run]
      rw [ApproveConfession_missing dbOk a hmiss]
  | reject dbOk c a reason =>
    rcases find_key s c.ID with ⟨r, hr, hid⟩ | hmiss
    · by_cases hst : r.Status = 0
      · cases dbOk
        · left
          simp only [Call.run]
          rw [RejectConfession_refused a reason hk.1 hr hid hst]
        · right
          refine ⟨r, setConfessionRejected r 2 a reason, hr, rfl, ?_, Or.inl rfl⟩
          simp only [Call.run]
          rw [RejectConfession_saved a reason hk hr hid hst, hid]
      · left
        simp only [Call.run]
        rw [RejectConfession_guard dbOk a reason hk.1 hr hid hst]
    · left
      simp only [Call.run]
      rw [RejectConfession_missing dbOk a reason hmiss]
  | rollback dbOk c a =>
    rcases find_key s c.ID with ⟨r, hr, hid⟩ | hmiss
    · cases dbOk
      · left
        simp only [Call.run]
        rw [RollbackApproveConfession_refused a hk.1 hr hid]
      · right
        refine ⟨r, setConfessionUnapproved r, hr, rfl, ?_, Or.inr (Or.inl rfl)⟩
        simp only [Call.run]
        rw [RollbackApproveConfession_saved a hk hr hid, hid]
    · left
      simp only [Call.run]
      rw [RollbackApproveConfession_missing dbOk a hmiss]

theorem KeysOk_rewrite {s : Store} (hk : KeysOk s) {r r1 : Confession} (hid : r1.ID = r.ID) :
    KeysOk (s.map (fun q => if q.ID = r.ID then r1 else q)) := by
  have hmap : (s.map (fun q => if q.ID = r.ID then r1 else q)).map (fun q => q.ID) =
      s.map (fun q => q.ID) := by
    rw [List.map_map]
    apply List.map_congr_left
    intro q _
    by_cases h : q.ID = r.ID
    · simp [h, hid]
    · simp [h]
  refine ⟨by rw [hmap]; exact hk.1, ?_⟩
  intro q hq
  rcases List.mem_map.1 hq with ⟨x, hx, hxq⟩
  by_cases h : x.ID = r.ID
  · rw [if_pos h] at hxq
    rw [← hxq, hid, ← h]
    exact hk.2 x hx
  · rw [if_neg h] at hxq
    rw [← hxq]
    exact hk.2 x hx

theorem DistinctCfs_rewrite {s : Store} (hk : KeysOk s) (hd : DistinctCfs s)
    {r r1 : Confession} (hr : r ∈ s)
    (hx : r1.CfsID = r.CfsID ∨ r1.CfsID = 0 ∨ ∀ q ∈ s, q.CfsID < r1.CfsID) :
    DistinctCfs (s.map (fun q => if q.ID = r.ID then r1 else q)) := by
  unfold DistinctCfs at hd ⊢
  rw [List.pairwise_map]
  have hne : s.Pairwise (fun a b => a.ID ≠ b.ID) := by
    have := hk.1
    unfold List.Nodup at this
    rwa [List.pairwise_map] at this
  refine (hd.and hne).imp_of_mem ?_
  intro a b ha hb hab
  obtain ⟨hR, hab⟩ := hab
  by_cases h1 : a.ID = r.ID
  · have h2 : b.ID ≠ r.ID := fun h => hab (h1.trans h.symm)
    have har : a = r := eq_of_key_eq hk.1 ha hr h1
    rw [if_pos h1, if_neg h2]
    rcases hx with hx | hx | hx
    · rw [hx, ← har]; exact hR
    · intro h; exact absurd hx h
    · intro _; exact ne_of_gt (hx b hb)
  · rw [if_neg h1]
    by_cases h2 : b.ID = r.ID
    · have hbr : b = r := eq_of_key_eq hk.1 hb hr h2
      rw [if_pos h2]
      rcases hx with hx | hx | hx
      · rw [hx, ← hbr]; exact hR
      · rw [hx]; intro h; exact h
      · intro _; exact ne_of_lt (hx a ha)
    · rw [if_neg h2]; exact hR

theorem ColumnRoom_pred {n : Nat} {s : Store} (h : ColumnRoom (n + 1) s) : ColumnRoom n s := by
  refine ⟨by have := h.1; push_cast at this; omega, ?_⟩
  intro q hq
  have := h.2 q hq
  push_cast at this
  omega

theorem CfsFits_of_CfsInColumn {s : Store} (h : CfsInColumn s) : CfsFits s := by
  intro r hr
  have := h r hr
  constructor <;> omega

theorem Call_run_preserves (k : Call) {s : Store} {n : Nat} (hk : KeysOk s)
    (hd : DistinctCfs s) (hroom : ColumnRoom (n + 1) s) :
    KeysOk (k.run s).store ∧ DistinctCfs (k.run s).store ∧ ColumnRoom n (k.run s).store := by
  have hroom0 : ColumnRoom n s := ColumnRoom_pred hroom
  rcases Call_run_store k hk with h | ⟨r, r1, hr, hid, hstore, hx⟩
  · rw [h]; exact ⟨hk, hd, hroom0⟩
  · rw [hstore]
    have hx2 : (r1.CfsID = r.CfsID ∨ r1.CfsID = 0 ∨ ∀ q ∈ s, q.CfsID < r1.CfsID) ∧
        -2 ^ 31 ≤ r1.CfsID ∧ r1.CfsID + n < 2 ^ 31 := by
      have hn := hroom.1
      push_cast at hn
      rcases hx with hx | hx | ⟨h, hm, hmax, hx⟩
      · have := hroom.2 r hr
        push_cast at this
        exact ⟨Or.inl hx, by omega, by omega⟩
      · exact ⟨Or.inr (Or.inl hx), by omega, by omega⟩
      · have hb := hroom.2 h hm
        push_cast at hb
        rw [wrapInt_of_fits (by omega) (by omega)] at hx
        refine ⟨Or.inr (Or.inr ?_), by omega, by omega⟩
        intro q hq
        have := hmax q hq
        omega
    refine ⟨KeysOk_rewrite hk hid, DistinctCfs_rewrite hk hd hr hx2.1, hroom0.1, ?_⟩
    intro q hq
    rcases List.mem_map.1 hq with ⟨x, hxs, hxq⟩
    by_cases h : x.ID = r.ID
    · rw [if_pos h] at hxq
      rw [← hxq]; exact hx2.2
    · rw [if_neg h] at hxq
      rw [← hxq]; exact hroom0.2 x hxs

theorem runCalls_preserves (calls : List Call) : ∀ {s : Store}, KeysOk s → DistinctCfs s →
    ColumnRoom calls.length s →
    KeysOk (runCalls s calls) ∧ DistinctCfs (runCalls s calls) ∧
      ColumnRoom 0 (runCalls s calls) := by
  induction calls with
  | nil => intro s hk hd hroom; exact ⟨hk, hd, hroom⟩
  | cons k ks ih =>
    intro s hk hd hroom
    obtain ⟨h1, h2, h3⟩ := Call_run_preserves k hk hd hroom
    exact ih h1 h2 h3

/-- Under the key constraints, what a call does to the statuses: the table is
left as it is, or the one row with the receiver's id is rewritten, from Pending
to Approved (approve), from Pending to Rejected (reject), or from whatever it was
to Pending (rollback). -/
theorem Call_run_status (k : Call) {s : Store} (hk : KeysOk s) :
    (k.run s).store = s ∨
      ∃ r r1, r ∈ s ∧ r1.ID = r.ID ∧
        (k.run s).store = s.map (fun q => if q.ID = r.ID then r1 else q) ∧
        ((r.Status = 0 ∧ r1.Status = 1 ∧ ∃ c a, k = Call.approve true c a) ∨
          (r.Status = 0 ∧ r1.Status = 2 ∧ ∃ c a reason, k = Call.reject true c a reason) ∨
          (r1.Status = 0 ∧ ∃ c a, k = Call.rollback true c a)) := by
  cases k with
  | approve dbOk c a =>
    rcases find_key s c.ID with ⟨r, hr, hid⟩ | hmiss
    · by_cases hst : r.Status = 0
      · cases dbOk
        · left
          simp only [Call.run]
          rw [ApproveConfession_refused a hk.1 hr hid hst]
        · right
          refine ⟨r, setConfessionApproved r 1 a (GetNextConfessionID s Confession.zero).1, hr,
            rfl, ?_, Or.inl ⟨hst, rfl, c, a, rfl⟩⟩
          simp only [Call.run]
          rw [ApproveConfession_saved a hk hr hid hst, hid]
      · left
        simp only [Call.run]
        rw [ApproveConfession_guard dbOk a hk.1 hr hid hst]
    · left
      simp only [Call.run]
      rw [ApproveConfession_missing dbOk a hmiss]
  | reject dbOk c a reason =>
    rcases find_key s c.ID with ⟨r, hr, hid⟩ | hmiss
    · by_cases hst : r.Status = 0
      · cases dbOk
        · left
          simp only [Call.run]
          rw [RejectConfession_refused a reason hk.1 hr hid hst]
        · right
          refine ⟨r, setConfessionRejected r 2 a reason, hr, rfl, ?_,
            Or.inr (Or.inl ⟨hst, rfl, c, a, reason, rfl⟩)⟩
          simp only [Call.run]
          rw [RejectConfession_saved a reason hk hr hid hst, hid]
      · left
        simp only [Call.run]
        rw [RejectConfession_guard dbOk a reason hk.1 hr hid hst]
    · left
      simp only [Call.run]
      rw [RejectConfession_missing dbOk a reason hmiss]
  | rollback dbOk c a =>
    rcases find_key s c.ID with ⟨r, hr, hid⟩ | hmiss
    · cases dbOk
      · left
        simp only [Call.run]
        rw [RollbackApproveConfession_refused a hk.1 hr hid]
      · right
        refine ⟨r, setConfessionUnapproved r, hr, rfl, ?_, Or.inr (Or.inr ⟨rfl, c, a, rfl⟩)⟩
        simp only [Call.run]
        rw [RollbackApproveConfession_saved a hk hr hid, hid]
    · left
      simp only [Call.run]
      rw [RollbackApproveConfession_missing dbOk a hmiss]

/-- The part of the status workflow the three methods keep, on tables with valid
keys: statuses stay within 0, 1, 2, row by row the id is kept, and a status that
changes goes 0 to 1, 0 to 2, or, through a rollback only, from 1 or 2 to 0. -/
theorem Call_run_transitions (k : Call) {s : Store} (hk : KeysOk s) (hs : StatusOk s) :
    StatusOk (k.run s).store ∧
      List.Forall₂ (fun q q1 => q1.ID = q.ID ∧
        (q1.Status = q.Status ∨ (q.Status = 0 ∧ q1.Status = 1) ∨ (q.Status = 0 ∧ q1.Status = 2) ∨
          ((q.Status = 1 ∨ q.Status = 2) ∧ q1.Status = 0 ∧ ∃ c a, k = Call.rollback true c a)))
        s (k.run s).store := by
  rcases Call_run_status k hk with h | ⟨r, r1, hr, hid, hstore, hcase⟩
  · rw [h]
    exact ⟨hs, List.forall₂_same.2 (fun q _ => ⟨rfl, Or.inl rfl⟩)⟩
  · rw [hstore]
    constructor
    · intro q hq
      rcases List.mem_map.1 hq with ⟨x, hx, hxq⟩
      by_cases h : x.ID = r.ID
      · rw [if_pos h] at hxq
        rw [← hxq]
        rcases hcase with ⟨_, h1, _⟩ | ⟨_, h1, _⟩ | ⟨h1, _⟩
        · exact Or.inr (Or.inl h1)
        · exact Or.inr (Or.inr h1)
        · exact Or.inl h1
      · rw [if_neg h] at hxq
        rw [← hxq]; exact hs x hx
    · rw [List.forall₂_map_right_iff, List.forall₂_same]
      intro q hq
      by_cases h : q.ID = r.ID
      · have hqr : q = r := eq_of_key_eq hk.1 hq hr h
        rw [if_pos h]
        refine ⟨hid.trans h.symm, ?_⟩
        rw [hqr]
        rcases hcase with ⟨h0, h1, _⟩ | ⟨h0, h1, _⟩ | ⟨h1, hroll⟩
        · exact Or.inr (Or.inl ⟨h0, h1⟩)
        · exact Or.inr (Or.inr (Or.inl ⟨h0, h1⟩))
        · rcases hs r hr with h0 | h0 | h0
          · exact Or.inl (h1.trans h0.symm)
          · exact Or.inr (Or.inr (Or.inr ⟨Or.inl h0, h1, hroll⟩))
          · exact Or.inr (Or.inr (Or.inr ⟨Or.inr h0, h1, hroll⟩))
      · rw [if_neg h]
        exact ⟨rfl, Or.inl rfl⟩

/-! ## The moderation methods -/

/-- C1: `ApproveConfession` on a receiver whose id names a stored confession that
is not Pending returns an error, whoever the approver is and whether or not the
database would take the write, and the table after the call is the table before
it: no row is modified. -/
theorem ApproveConfession_not_pending (dbOk : Bool) (s : Store) (c r : Confession)
    (approverID : Int) (hk : KeysOk s) (hr : r ∈ s) (hid : r.ID = c.ID) (hst : r.Status ≠ 0) :
    (ApproveConfession dbOk s c approverID).err =
        some "Status of confession must be pending to be approved" ∧
      (ApproveConfession dbOk s c approverID).store = s := by
  rw [ApproveConfession_guard dbOk approverID hk.1 hr hid hst]
  exact ⟨rfl, rfl⟩

theorem ApproveConfession_not_pending_witness :
    KeysOk sampleStore ∧
      (ApproveConfession true sampleStore { Confession.zero with ID := 5 } 7).err =
        some "Status of confession must be pending to be approved" ∧
      (ApproveConfession true sampleStore { Confession.zero with ID := 5 } 7).store =
        sampleStore :=
  ⟨by decide, ApproveConfession_not_pending true sampleStore { Confession.zero with ID := 5 }
    rejectedRow 7 (by decide) (by decide) (by decide) (by decide)⟩

/-- C2, as the code has it: on a table whose `cfs_id`s lie in the range of their
column and below its largest value, and a receiver whose id names a stored
Pending confession, when the write succeeds `ApproveConfession` returns no error
and the stored row becomes the old row with status 1, the given approver and
`cfs_id` one more than the largest `cfs_id` of the table at call time, a number
the column holds, every other row staying as it was.  On the table holding one
freshly created confession, approval by 42 gives `cfs_id` 1, and approving a
second created confession then gives `cfs_id` 2. -/
theorem ApproveConfession_pending (s : Store) (c r : Confession) (approverID : Int)
    (hk : KeysOk s) (hf : CfsInColumn s) (hr : r ∈ s) (hid : r.ID = c.ID)
    (hst : r.Status = 0) :
    (∃ m : Int, (∃ q ∈ s, q.CfsID = m) ∧ (∀ q ∈ s, q.CfsID ≤ m) ∧
      (-2 ^ 31 ≤ 1 + m ∧ 1 + m < 2 ^ 31) ∧
      (ApproveConfession true s c approverID).err = none ∧
      (ApproveConfession true s c approverID).store =
        s.map (fun q => if q.ID = c.ID then
          { r with Status := 1, Approver := approverID, CfsID := 1 + m } else q) ∧
      { r with Status := 1, Approver := approverID, CfsID := 1 + m } ∈
        (ApproveConfession true s c approverID).store) ∧
    (ApproveConfession true
        (Create true [] { Confession.zero with Content := "hello", Sender := "u1" }).1
        (Create true [] { Confession.zero with Content := "hello", Sender := "u1" }).2.1 42).store =
      [{ ID := 1, Content := "hello", Sender := "u1", PushID := "", Status := 1, Approver := 42,
         Reason := "", CfsID := 1 }] ∧
    (ApproveConfession true
        (Create true
          [{ ID := 1, Content := "hello", Sender := "u1", PushID := "", Status := 1,
             Approver := 42, Reason := "", CfsID := 1 }]
          { Confession.zero with Content := "second", Sender := "u2" }).1
        (Create true
          [{ ID := 1, Content := "hello", Sender := "u1", PushID := "", Status := 1,
             Approver := 42, Reason := "", CfsID := 1 }]
          { Confession.zero with Content := "second", Sender := "u2" }).2.1 42).store =
      [{ ID := 1, Content := "hello", Sender := "u1", PushID := "", Status := 1, Approver := 42,
         Reason := "", CfsID := 1 },
       { ID := 2, Content := "second", Sender := "u2", PushID := "", Status := 1, Approver := 42,
         Reason := "", CfsID := 2 }] := by
  refine ⟨?_, by decide, by decide⟩
  have hs : s ≠ [] := List.ne_nil_of_mem hr
  obtain ⟨h, hm, hmax, hnext⟩ := GetNextConfessionID_fresh hs Confession.zero rfl
  have hb := hf h hm
  have hw : wrapInt (h.CfsID + 1) = 1 + h.CfsID := by
    rw [wrapInt_of_fits (by omega) (by omega)]; omega
  rw [ApproveConfession_saved approverID hk hr hid hst, hnext, hw]
  refine ⟨h.CfsID, ⟨h, hm, rfl⟩, hmax, ⟨by omega, by omega⟩, rfl, rfl, ?_⟩
  rw [List.mem_map]
  exact ⟨r, hr, by simp [hid, setConfessionApproved]⟩

theorem ApproveConfession_pending_witness :
    KeysOk sampleStore ∧ CfsInColumn sampleStore ∧
      ∃ m : Int, (∃ q ∈ sampleStore, q.CfsID = m) ∧ (∀ q ∈ sampleStore, q.CfsID ≤ m) ∧
        (-2 ^ 31 ≤ 1 + m ∧ 1 + m < 2 ^ 31) ∧
        (ApproveConfession true sampleStore { Confession.zero with ID := 6 } 42).err = none ∧
        (ApproveConfession true sampleStore { Confession.zero with ID := 6 } 42).store =
          sampleStore.map (fun q =>
            if q.ID = ({ Confession.zero with ID := 6 } : Confession).ID then
              { pendingRow with Status := 1, Approver := 42, CfsID := 1 + m } else q) ∧
        { pendingRow with Status := 1, Approver := 42, CfsID := 1 + m } ∈
          (ApproveConfession true sampleStore { Confession.zero with ID := 6 } 42).store :=
  ⟨by decide, by decide,
    (ApproveConfession_pending sampleStore { Confession.zero with ID := 6 } pendingRow 42
      (by decide) (by decide) (by decide) (by decide) (by decide)).1⟩

/-- C2 fails as stated: on the table the three `Create` calls leave, whose largest
`cfs_id` is the largest 64-bit integer 9223372036854775807, approving the
pending row 2 succeeds and stores `cfs_id` -9223372036854775808, which is not
one more than the largest `cfs_id` of the table. -/
theorem ApproveConfession_wraps_at_largest_int :
    wrapStore =
        (Create true
          (Create true (Create true [] { lastNumberRow with ID := 0 }).1
            { waitingRow with ID := 0 }).1
          { otherWaitingRow with ID := 0 }).1 ∧
      KeysOk wrapStore ∧ waitingRow ∈ wrapStore ∧ waitingRow.Status = 0 ∧
      lastNumberRow ∈ wrapStore ∧ (∀ q ∈ wrapStore, q.CfsID ≤ 9223372036854775807) ∧
      (ApproveConfession true wrapStore { Confession.zero with ID := 2 } 42).err = none ∧
      (ApproveConfession true wrapStore { Confession.zero with ID := 2 } 42).store =
        [lastNumberRow,
         { ID := 2, Content := "new", Sender := "u1", PushID := "t1", Status := 1, Approver := 42,
           Reason := "", CfsID := -9223372036854775808 },
         otherWaitingRow] ∧
      (-9223372036854775808 : Int) ≠ 1 + 9223372036854775807 := by
  decide

/-- C3: `RejectConfession` on a receiver whose id names a stored confession.  If
the row is not Pending the call returns an error and the table is unchanged.  If
it is Pending and the write succeeds, the call returns no error and the stored
row becomes the old row with status 2, the given approver and exactly the given
reason, its other fields (`cfs_id`, content, sender, push id) and every other row
staying as they were. -/
theorem RejectConfession_contract (s : Store) (c r : Confession) (approverID : Int)
    (reason : String) (hk : KeysOk s) (hr : r ∈ s) (hid : r.ID = c.ID) :
    (r.Status ≠ 0 → ∀ dbOk : Bool,
      (RejectConfession dbOk s c approverID reason).err =
          some "Status of confession must be pending to be rejected" ∧
        (RejectConfession dbOk s c approverID reason).store = s) ∧
    (r.Status = 0 →
      (RejectConfession true s c approverID reason).err = none ∧
      (RejectConfession true s c approverID reason).store =
        s.map (fun q => if q.ID = c.ID then
          { r with Status := 2, Approver := approverID, Reason := reason } else q) ∧
      { r with Status := 2, Approver := approverID, Reason := reason } ∈
        (RejectConfession true s c approverID reason).store) := by
  constructor
  · intro hst dbOk
    rw [RejectConfession_guard dbOk approverID reason hk.1 hr hid hst]
    exact ⟨rfl, rfl⟩
  · intro hst
    rw [RejectConfession_saved approverID reason hk hr hid hst]
    refine ⟨rfl, rfl, ?_⟩
    rw [List.mem_map]
    exact ⟨r, hr, by simp [hid, setConfessionRejected]⟩

theorem RejectConfession_contract_witness :
    KeysOk sampleStore ∧
      ((RejectConfession false sampleStore { Confession.zero with ID := 4 } 7 "dup").err =
          some "Status of confession must be pending to be rejected" ∧
        (RejectConfession false sampleStore { Confession.zero with ID := 4 } 7 "dup").store =
          sampleStore) ∧
      (RejectConfession true sampleStore { Confession.zero with ID := 6 } 7 "dup").store =
        sampleStore.map (fun q =>
          if q.ID = ({ Confession.zero with ID := 6 } : Confession).ID then
            { pendingRow with Status := 2, Approver := 7, Reason := "dup" } else q) :=
  ⟨by decide,
    (RejectConfession_contract sampleStore { Confession.zero with ID := 4 } approvedRow 7 "dup"
      (by decide) (by decide) (by decide)).1 (by decide) false,
    ((RejectConfession_contract sampleStore { Confession.zero with ID := 6 } pendingRow 7 "dup"
      (by decide) (by decide) (by decide)).2 (by decide)).2.1⟩

/-- C6: `RollbackApproveConfession` has no precondition on the status.  On a
receiver whose id names a stored confession, Pending, Approved or Rejected, and
whatever approver is passed, when the write succeeds it returns no error and the
stored row becomes the old row with status 0, approver 0 and `cfs_id` 0, its id,
content, sender, push id and reason and every other row staying as they were.
When no row has the receiver's id it returns an error and the table is
unchanged. -/
theorem RollbackApproveConfession_contract (s : Store) (c : Confession) (approverID : Int)
    (hk : KeysOk s) :
    (∀ r ∈ s, r.ID = c.ID →
      (RollbackApproveConfession true s c approverID).err = none ∧
      (RollbackApproveConfession true s c approverID).store =
        s.map (fun q => if q.ID = c.ID then
          { r with Status := 0, Approver := 0, CfsID := 0 } else q) ∧
      { r with Status := 0, Approver := 0, CfsID := 0 } ∈
        (RollbackApproveConfession true s c approverID).store) ∧
    ((∀ r ∈ s, r.ID ≠ c.ID) → ∀ dbOk : Bool,
      (RollbackApproveConfession dbOk s c approverID).err =
          some "Could not find the confession" ∧
        (RollbackApproveConfession dbOk s c approverID).store = s) := by
  constructor
  · intro r hr hid
    rw [RollbackApproveConfession_saved approverID hk hr hid]
    refine ⟨rfl, rfl, ?_⟩
    rw [List.mem_map]
    exact ⟨r, hr, by simp [hid, setConfessionUnapproved]⟩
  · intro h dbOk
    rw [RollbackApproveConfession_missing dbOk approverID h]
    exact ⟨rfl, rfl⟩

theorem RollbackApproveConfession_contract_witness :
    KeysOk sampleStore ∧
      (RollbackApproveConfession true sampleStore { Confession.zero with ID := 5 } 7).store =
        sampleStore.map (fun q =>
          if q.ID = ({ Confession.zero with ID := 5 } : Confession).ID then
            { rejectedRow with Status := 0, Approver := 0, CfsID := 0 } else q) ∧
      (RollbackApproveConfession true sampleStore { Confession.zero with ID := 8 } 7).store =
        sampleStore :=
  ⟨by decide,
    ((RollbackApproveConfession_contract sampleStore { Confession.zero with ID := 5 } 7
      (by decide)).1 rejectedRow (by decide) (by decide)).2.1,
    ((RollbackApproveConfession_contract sampleStore { Confession.zero with ID := 8 } 7
      (by decide)).2 (by decide) true).2⟩

/-- C5: the predicate "a row with a non-zero `cfs_id` has status 1" is preserved
by `ApproveConfession`, `RejectConfession` and `RollbackApproveConfession`, with
any receiver and arguments and whether the call succeeds or fails. -/
theorem CfsOnlyApproved_preserved (dbOk : Bool) (s : Store) (c : Confession) (approverID : Int)
    (reason : String) (h : CfsOnlyApproved s) :
    CfsOnlyApproved (ApproveConfession dbOk s c approverID).store ∧
      CfsOnlyApproved (RejectConfession dbOk s c approverID reason).store ∧
      CfsOnlyApproved (RollbackApproveConfession dbOk s c approverID).store := by
  refine ⟨?_, ?_, ?_⟩
  · intro q hq hne
    rcases mem_ApproveConfession_store hq with h1 | h1
    · exact h q h1 hne
    · exact h1
  · intro q hq hne
    rcases mem_RejectConfession_store hq with h1 | ⟨_, r, hr, hst, hc⟩
    · exact h q h1 hne
    · have := h r hr (hc ▸ hne)
      omega
  · intro q hq hne
    rcases mem_RollbackApproveConfession_store hq with h1 | ⟨_, h1⟩
    · exact h q h1 hne
    · exact absurd h1 hne

theorem CfsOnlyApproved_preserved_witness :
    CfsOnlyApproved sampleStore ∧
      CfsOnlyApproved (ApproveConfession true sampleStore pendingRow 42).store ∧
      CfsOnlyApproved (RejectConfession true sampleStore pendingRow 42 "dup").store ∧
      CfsOnlyApproved (RollbackApproveConfession true sampleStore approvedRow 42).store :=
  ⟨by decide, (CfsOnlyApproved_preserved true sampleStore pendingRow 42 "dup" (by decide)).1,
    (CfsOnlyApproved_preserved true sampleStore pendingRow 42 "dup" (by decide)).2.1,
    (CfsOnlyApproved_preserved true sampleStore approvedRow 42 "dup" (by decide)).2.2⟩

/-! ## Counting and numbering -/

/-- C9: `FetchOverview` returns the number of rows, the number of rows with
status 0 and the number of rows with status 2.  On a table of 3 pending, 2
approved and 1 rejected confession that is (6, 3, 1), and when every status is
0, 1 or 2 the first count minus the other two is the number of approved rows. -/
theorem FetchOverview_counts (s : Store) :
    FetchOverview s =
        (s.length, s.countP (fun r => r.Status = 0), s.countP (fun r => r.Status = 2)) ∧
      (StatusOk s → s.countP (fun r => r.Status = 0) = 3 → s.countP (fun r => r.Status = 1) = 2 →
        s.countP (fun r => r.Status = 2) = 1 → FetchOverview s = (6, 3, 1)) ∧
      (StatusOk s →
        ((FetchOverview s).1 : Int) - (FetchOverview s).2.1 - (FetchOverview s).2.2 =
          s.countP (fun r => r.Status = 1)) := by
  have hdef : FetchOverview s =
      (s.length, s.countP (fun r => r.Status = 0), s.countP (fun r => r.Status = 2)) := by
    simp [FetchOverview, List.countP_eq_length_filter]
  refine ⟨hdef, ?_, ?_⟩
  · intro hs h0 h1 h2
    rw [hdef, length_eq_count_by_status hs, h0, h1, h2]
  · intro hs
    rw [hdef]
    simp only
    rw [length_eq_count_by_status hs]
    push_cast
    ring

theorem FetchOverview_counts_witness :
    StatusOk [pendingRow, approvedRow, pendingRow, rejectedRow, approvedRow, pendingRow] ∧
      FetchOverview [pendingRow, approvedRow, pendingRow, rejectedRow, approvedRow, pendingRow] =
        (6, 3, 1) :=
  ⟨by decide,
    (FetchOverview_counts
      [pendingRow, approvedRow, pendingRow, rejectedRow, approvedRow, pendingRow]).2.1
      (by decide) (by decide) (by decide) (by decide)⟩

/-- C7, as the code has it: on the empty table `GetNextConfessionID` returns the
receiver's own `cfs_id` plus one (1 when that is 0, as for the fresh entity
`ApproveConfession` calls it on); on a non-empty table whose `cfs_id`s fit, called
on a receiver with a blank id, it returns one more than the largest `cfs_id` of
the table. -/
theorem GetNextConfessionID_spec (s : Store) (c : Confession) :
    (s = [] → (GetNextConfessionID s c).1 = wrapInt (c.CfsID + 1)) ∧
      (s = [] → c.CfsID = 0 → (GetNextConfessionID s c).1 = 1) ∧
      (s ≠ [] → c.ID = 0 → CfsFits s →
        ∃ m : Int, (∃ q ∈ s, q.CfsID = m) ∧ (∀ q ∈ s, q.CfsID ≤ m) ∧
          (GetNextConfessionID s c).1 = 1 + m) := by
  refine ⟨?_, ?_, ?_⟩
  · intro hs
    subst hs
    simp [GetNextConfessionID, primaryScope, orderByCfsIDDesc]
  · intro hs hc
    subst hs
    simp [GetNextConfessionID, primaryScope, orderByCfsIDDesc, hc, wrapInt]
  · intro hs hc hf
    obtain ⟨h, hm, hmax, hnext⟩ := GetNextConfessionID_fresh hs c hc
    have hb := hf h hm
    refine ⟨h.CfsID, ⟨h, hm, rfl⟩, hmax, ?_⟩
    rw [hnext]
    simp only
    rw [wrapInt_of_fits (by omega) (by omega)]
    omega

theorem GetNextConfessionID_spec_witness :
    (GetNextConfessionID [] Confession.zero).1 = 1 ∧
      CfsFits sampleStore ∧
      ∃ m : Int, (∃ q ∈ sampleStore, q.CfsID = m) ∧ (∀ q ∈ sampleStore, q.CfsID ≤ m) ∧
        (GetNextConfessionID sampleStore Confession.zero).1 = 1 + m :=
  ⟨(GetNextConfessionID_spec [] Confession.zero).2.1 rfl rfl, by decide,
    (GetNextConfessionID_spec sampleStore Confession.zero).2.2 (by decide) rfl (by decide)⟩

/-- C7 fails as stated: on the empty table a receiver whose `cfs_id` is 5 gets 6,
not 1. -/
theorem GetNextConfessionID_empty_stale_receiver :
    (GetNextConfessionID [] { Confession.zero with CfsID := 5 }).1 = 6 ∧
      (GetNextConfessionID [] { Confession.zero with CfsID := 5 }).1 ≠ 1 := by
  decide

/-! ## Search -/

/-- C8, as the code has it: `SearchConfession` returns at most 50 stored rows,
each with status 1 and a content that matches the `LIKE` pattern `%keyword%`, in
strictly decreasing order of id.  For a keyword without the characters `%`, `_`
and `\` the contents found are those that contain the keyword (up to the
collation; exactly, under the binary collation), and a stored row with status 1
whose content contains the keyword is missing from the result only if the result
already holds 50 such rows, all of larger id. -/
theorem SearchConfession_spec (collate : Char → Char → Bool) (s : Store) (keyword : String) :
    (SearchConfession collate s keyword).length ≤ 50 ∧
      (∀ r ∈ SearchConfession collate s keyword,
        r ∈ s ∧ r.Status = 1 ∧ sqlLike collate r.Content ("%" ++ keyword ++ "%") = true) ∧
      (PlainKeyword keyword → ∀ r ∈ SearchConfession collate s keyword,
        ContainsUnder collate keyword.data r.Content.data) ∧
      (PlainKeyword keyword → ∀ r ∈ SearchConfession exactChars s keyword,
        keyword.data <:+: r.Content.data) ∧
      (KeysOk s → (SearchConfession collate s keyword).Pairwise (fun a b => b.ID < a.ID)) ∧
      (KeysOk s → PlainKeyword keyword →
        ∀ r ∈ s, r.Status = 1 → ContainsUnder collate keyword.data r.Content.data →
          r ∉ SearchConfession collate s keyword →
          (SearchConfession collate s keyword).length = 50 ∧
            ∀ q ∈ SearchConfession collate s keyword, r.ID < q.ID) ∧
      (∀ text : String, ContainsUnder exactChars keyword.data text.data ↔
        keyword.data <:+: text.data) := by
  have hmem : ∀ (col : Char → Char → Bool), ∀ r ∈ SearchConfession col s keyword,
      r ∈ s ∧ r.Status = 1 ∧ sqlLike col r.Content ("%" ++ keyword ++ "%") = true := by
    intro col r hr
    have h1 := (orderByIDDesc_perm _).mem_iff.1 (List.mem_of_mem_take hr)
    rw [List.mem_filter] at h1
    exact ⟨h1.1, by simpa using h1.2⟩
  refine ⟨List.length_take_le _ _, hmem collate, ?_, ?_, ?_, ?_,
    fun text => ContainsUnder_exact _ _⟩
  · intro hp r hr
    exact (sqlLike_contains _ _ _ hp).1 (hmem collate r hr).2.2
  · intro hp r hr
    exact (ContainsUnder_exact _ _).1 ((sqlLike_contains _ _ _ hp).1 (hmem exactChars r hr).2.2)
  · intro hk
    exact (orderByIDDesc_strict (nodup_keys_filter hk.1 _)).sublist (List.take_sublist _ _)
  · intro hk hp r hr hst hin hnot
    have hstrict := orderByIDDesc_strict (nodup_keys_filter hk.1
      (fun r => decide (r.Status = 1 ∧ sqlLike collate r.Content ("%" ++ keyword ++ "%") = true)))
    have hrL : r ∈ orderByIDDesc (s.filter (fun r =>
        decide (r.Status = 1 ∧ sqlLike collate r.Content ("%" ++ keyword ++ "%") = true))) := by
      rw [(orderByIDDesc_perm _).mem_iff, List.mem_filter]
      exact ⟨hr, by simpa using ⟨hst, (sqlLike_contains _ _ _ hp).2 hin⟩⟩
    unfold SearchConfession at hnot ⊢
    generalize orderByIDDesc (s.filter (fun r =>
      decide (r.Status = 1 ∧ sqlLike collate r.Content ("%" ++ keyword ++ "%") = true))) = L
      at hstrict hrL hnot ⊢
    rw [← List.take_append_drop 50 L] at hrL hstrict
    have hdrop : r ∈ L.drop 50 := by
      rcases List.mem_append.1 hrL with h | h
      · exact absurd h hnot
      · exact h
    have hlen : 50 < L.length := by
      by_contra hcon
      rw [List.drop_eq_nil_of_le (by omega)] at hdrop
      simp at hdrop
    refine ⟨by rw [List.length_take]; omega, ?_⟩
    intro q hq
    exact (List.pairwise_append.1 hstrict).2.2 q hq r hdrop

theorem SearchConfession_spec_witness :
    KeysOk sampleStore ∧ PlainKeyword "post" ∧
      SearchConfession exactChars sampleStore "post" = [approvedRow] ∧
      (∀ r ∈ SearchConfession exactChars sampleStore "post", "post".data <:+: r.Content.data) ∧
      (SearchConfession exactChars sampleStore "post").Pairwise (fun a b => b.ID < a.ID) :=
  ⟨by decide, by decide, by decide,
    (SearchConfession_spec exactChars sampleStore "post").2.2.2.1 (by decide),
    (SearchConfession_spec exactChars sampleStore "post").2.2.2.2.1 (by decide)⟩

/-- C8 fails as stated: the keyword `_` finds the approved row, whose content
"first post" does not contain the character `_`. -/
theorem SearchConfession_wildcard_keyword :
    SearchConfession exactChars sampleStore "_" = [approvedRow] ∧
      approvedRow.Content = "first post" ∧
      ¬ ("_".data <:+: approvedRow.Content.data) := by
  decide

/-! ## The status workflow and the public numbers -/

/-- C4, the code at the failing input: every status of the sample table is 0, 1
or 2, its row 5 is Rejected, and `RollbackApproveConfession` on that row succeeds
and moves it from Rejected (2) to Pending (0), its rejection reason staying on
the row. -/
theorem RollbackApproveConfession_moves_rejected :
    StatusOk sampleStore ∧ KeysOk sampleStore ∧ rejectedRow ∈ sampleStore ∧
      rejectedRow.Status = 2 ∧
      (RollbackApproveConfession true sampleStore { Confession.zero with ID := 5 } 9).err = none ∧
      (RollbackApproveConfession true sampleStore { Confession.zero with ID := 5 } 9).store =
        [approvedRow,
         { ID := 5, Content := "buy now", Sender := "u2", PushID := "t2", Status := 0,
           Approver := 0, Reason := "spam", CfsID := 0 },
         pendingRow] := by
  decide

/-- C10, as the code has it: when the keys of the table are valid, its non-zero
`cfs_id`s are pairwise distinct and the column has room for the calls to come,
the non-zero `cfs_id`s are still pairwise distinct after any sequence of
`ApproveConfession`, `RejectConfession` and `RollbackApproveConfession` calls,
each run to completion before the next, and every `cfs_id` is still a value of
the column; and on a table whose `cfs_id`s lie in the column's range below its
largest value, the `cfs_id` a successful approval writes is strictly greater
than the `cfs_id` of every row of the table it is run on. -/
theorem DistinctCfs_runCalls (s : Store) (calls : List Call) (hk : KeysOk s)
    (hroom : ColumnRoom calls.length s) (hd : DistinctCfs s) :
    DistinctCfs (runCalls s calls) ∧
      (∀ r ∈ runCalls s calls, -2 ^ 31 ≤ r.CfsID ∧ r.CfsID < 2 ^ 31) ∧
      ∀ (t : Store) (dbOk : Bool) (c : Confession) (a : Int), KeysOk t → CfsInColumn t →
        (ApproveConfession dbOk t c a).err = none →
        (ApproveConfession dbOk t c a).recv ∈ (ApproveConfession dbOk t c a).store ∧
          ∀ q ∈ t, q.CfsID < (ApproveConfession dbOk t c a).recv.CfsID := by
  obtain ⟨_, hdist, hcol⟩ := runCalls_preserves calls hk hd hroom
  refine ⟨hdist, ?_, ?_⟩
  · intro r hr
    have := hcol.2 r hr
    push_cast at this
    exact ⟨this.1, by omega⟩
  intro t dbOk c a hkt hft herr
  rcases find_key t c.ID with ⟨r, hr, hid⟩ | hmiss
  · by_cases hst : r.Status = 0
    · cases dbOk
      · rw [ApproveConfession_refused a hkt.1 hr hid hst] at herr
        simp at herr
      · obtain ⟨h, hm, hmax, hnext⟩ :=
          GetNextConfessionID_fresh (List.ne_nil_of_mem hr) Confession.zero rfl
        have hb := hft h hm
        rw [ApproveConfession_saved a hkt hr hid hst, hnext]
        simp only [setConfessionApproved]
        rw [wrapInt_of_fits (by omega) (by omega)]
        constructor
        · rw [List.mem_map]
          exact ⟨r, hr, by simp [hid]⟩
        · intro q hq
          have := hmax q hq
          omega
    · rw [ApproveConfession_guard dbOk a hkt.1 hr hid hst] at herr
      simp at herr
  · rw [ApproveConfession_missing dbOk a hmiss] at herr
    simp at herr

theorem DistinctCfs_runCalls_witness :
    KeysOk sampleStore ∧ DistinctCfs sampleStore ∧
      ColumnRoom 4 sampleStore ∧
      DistinctCfs (runCalls sampleStore
        [Call.approve true { Confession.zero with ID := 6 } 42,
         Call.rollback true { Confession.zero with ID := 4 } 42,
         Call.reject false { Confession.zero with ID := 4 } 42 "dup",
         Call.approve true { Confession.zero with ID := 4 } 7]) :=
  ⟨by decide, by decide, by decide,
    (DistinctCfs_runCalls sampleStore
      [Call.approve true { Confession.zero with ID := 6 } 42,
       Call.rollback true { Confession.zero with ID := 4 } 42,
       Call.reject false { Confession.zero with ID := 4 } 42 "dup",
       Call.approve true { Confession.zero with ID := 4 } 7]
      (by decide) (by decide) (by decide)).1⟩

/-- C10 fails as stated: on the table whose largest `cfs_id` is the largest 64-bit
integer, with valid keys and a single non-zero `cfs_id`, approving the pending
rows 2 and 3 one after the other succeeds twice and writes -9223372036854775808
on both, so two rows share a non-zero `cfs_id`. -/
theorem DistinctCfs_lost_at_largest_int :
    KeysOk wrapStore ∧ DistinctCfs wrapStore ∧
      runCalls wrapStore
          [Call.approve true { Confession.zero with ID := 2 } 42,
           Call.approve true { Confession.zero with ID := 3 } 42] =
        [lastNumberRow,
         { ID := 2, Content := "new", Sender := "u1", PushID := "t1", Status := 1, Approver := 42,
           Reason := "", CfsID := -9223372036854775808 },
         { ID := 3, Content := "newer", Sender := "u2", PushID := "t2", Status := 1,
           Approver := 42, Reason := "", CfsID := -9223372036854775808 }] ∧
      ¬ DistinctCfs (runCalls wrapStore
          [Call.approve true { Confession.zero with ID := 2 } 42,
           Call.approve true { Confession.zero with ID := 3 } 42]) := by
  decide

end Models
